import Mathlib

set_option linter.unusedVariables false
set_option linter.unnecessarySeqFocus false

/-!
Verification of the subagent runner of the agent-magic repository
(pi-extensions/subagents: the runner module exporting runSubagent, plus the
catch branch of the scout/review tool wrapper that consumes it).

The runner is embedded shallowly: the event-driven handlers installed by
runSubagent (stdout data, stderr data, close, error, the abort listener and
the 2000 ms grace timer it schedules) become a step function over an explicit
state record, and a whole run is the fold of that step function over a finite
trace of events delivered by the runtime event loop.  The JS runtime's JSON
parser is abstracted as an oracle argument classifying each trimmed line.
-/

namespace Subagents

/-- JSON-like runtime values, modelling what the JS runtime's JSON parser can
produce for the arguments field of a streamed tool call. -/
inductive JsValue where
  | null
  | bool (b : Bool)
  | num (n : Int)
  | str (s : String)
  | arr (elems : List JsValue)
  | obj (fields : List (String × JsValue))

mutual

/-- Model of JSON.stringify as used to build the tool-call dedup key.  The
escaping of special characters inside strings and the exact number rendering
are simplified; no claim depends on the exact rendering, only on the key being
a function of name and arguments. -/
def stringifyJs : JsValue → String
  | .null => "null"
  | .bool true => "true"
  | .bool false => "false"
  | .num n => toString n
  | .str s => "\"" ++ s ++ "\""
  | .arr elems => "[" ++ stringifyArr elems ++ "]"
  | .obj fields => "\x7b" ++ stringifyObj fields ++ "\x7d"

/-- Serialize array elements, comma separated. -/
def stringifyArr : List JsValue → String
  | [] => ""
  | [v] => stringifyJs v
  | v :: rest => stringifyJs v ++ "," ++ stringifyArr rest

/-- Serialize object fields, comma separated. -/
def stringifyObj : List (String × JsValue) → String
  | [] => ""
  | [kv] => "\"" ++ kv.1 ++ "\":" ++ stringifyJs kv.2
  | kv :: rest => "\"" ++ kv.1 ++ "\":" ++ stringifyJs kv.2 ++ "," ++ stringifyObj rest

end

/-- A recorded subagent tool call (runner module, SubagentToolCall). -/
structure SubagentToolCall where
  id : Option String
  name : String
  arguments : JsValue

/-- Argument normalisation inside extractAssistantToolCalls: the check
"typeof part.arguments is object and part.arguments is not null" keeps arrays
and objects and replaces every other value with the empty object. -/
def normalizeArgs : JsValue → JsValue
  | .arr elems => .arr elems
  | .obj fields => .obj fields
  | _ => .obj []

/-- Dedup key of a tool call, transcribing the conditional expression in
processLine: the id when it is a truthy (non-empty) string, otherwise the name
followed by a colon and the serialized arguments. -/
def dedupKey (call : SubagentToolCall) : String :=
  match call.id with
  | some i => if i = "" then call.name ++ ":" ++ stringifyJs call.arguments else i
  | none => call.name ++ ":" ++ stringifyJs call.arguments

/-- Content parts of a streamed message, keeping exactly the fields the runner
reads: text parts carry a string, toolCall parts carry id, name and arguments;
every other part kind is opaque. -/
inductive ContentPart where
  | text (s : String)
  | toolCall (id : Option String) (name : String) (arguments : JsValue)
  | other

/-- Fields of a streamed message the runner reads. -/
structure Message where
  role : String
  content : List ContentPart
  stopReason : Option String
  errorMessage : Option String
  model : Option String

/-- ASCII whitespace test backing the trim model. -/
def isWsChar (c : Char) : Bool :=
  c = ' ' || c = '\t' || c = '\n' || c = '\r'

/-- Model of the JS string trim operation on character lists. -/
def trimChars (l : List Char) : List Char :=
  ((l.dropWhile isWsChar).reverse.dropWhile isWsChar).reverse

/-- Trim of a whole string. -/
def trimString (s : String) : String :=
  String.mk (trimChars s.data)

/-- Model of joining a list of strings with a newline separator. -/
def joinLinesStr : List String → String
  | [] => ""
  | [s] => s
  | s :: rest => s ++ "\n" ++ joinLinesStr rest

/-- Transcription of extractAssistantText: the empty string for non-assistant
messages, otherwise the text parts joined by newline and trimmed. -/
def extractAssistantText (m : Message) : String :=
  if m.role = "assistant" then
    trimString (joinLinesStr (m.content.filterMap (fun p =>
      match p with
      | .text s => some s
      | _ => none)))
  else ""

/-- Transcription of extractAssistantToolCalls: the empty list for
non-assistant messages, otherwise one call per toolCall content part, with the
arguments normalised. -/
def extractAssistantToolCalls (m : Message) : List SubagentToolCall :=
  if m.role = "assistant" then
    m.content.filterMap (fun p =>
      match p with
      | .toolCall i n a => some { id := i, name := n, arguments := normalizeArgs a }
      | _ => none)
  else []

/-- Reducer state owned by processLine: the message history, the deduplicated
tool-call sequence and its key set, the latest final text, stop reason, error
message and model, and a counter of emitted progress notifications standing in
for the onProgress calls. -/
structure RedState where
  messages : List Message
  toolCalls : List SubagentToolCall
  seenKeys : List String
  finalText : String
  stopReason : Option String
  errorMessage : Option String
  model : Option String
  progressCount : Nat

/-- Initial reducer state of a run. -/
def initRed : RedState :=
  { messages := [], toolCalls := [], seenKeys := [], finalText := ""
    stopReason := none, errorMessage := none, model := none, progressCount := 0 }

/-- Dedup loop of processLine over the extracted calls: a call whose key was
already seen is skipped; otherwise the key is recorded, the call appended, and
the changed flag set. -/
def dedupFold (st : RedState) (changed : Bool) : List SubagentToolCall → RedState × Bool
  | [] => (st, changed)
  | call :: rest =>
    if dedupKey call ∈ st.seenKeys then dedupFold st changed rest
    else
      dedupFold
        { st with seenKeys := st.seenKeys ++ [dedupKey call]
                  toolCalls := st.toolCalls ++ [call] }
        true rest

/-- JS truthiness of an optional string field: present and non-empty. -/
def strTruthy : Option String → Bool
  | none => false
  | some s => s != ""

/-- Text step of processLine: a non-empty extracted text replaces finalText
and marks changed. -/
def applyText (m : Message) (p : RedState × Bool) : RedState × Bool :=
  if extractAssistantText m = "" then p
  else ({ p.1 with finalText := extractAssistantText m }, true)

/-- Stop-reason step of processLine: a truthy stop reason is recorded and
marks changed. -/
def applyStop (m : Message) (p : RedState × Bool) : RedState × Bool :=
  if strTruthy m.stopReason then ({ p.1 with stopReason := m.stopReason }, true) else p

/-- Error-message step of processLine: a truthy error message is recorded
without marking changed. -/
def applyErr (m : Message) (p : RedState × Bool) : RedState × Bool :=
  if strTruthy m.errorMessage then ({ p.1 with errorMessage := m.errorMessage }, p.2) else p

/-- Model step of processLine: a truthy model identifier is recorded without
marking changed. -/
def applyModel (m : Message) (p : RedState × Bool) : RedState × Bool :=
  if strTruthy m.model then ({ p.1 with model := m.model }, p.2) else p

/-- Final step of processLine: when anything marked changed, emitProgress is
invoked, modelled by bumping the notification counter. -/
def applyNotify (p : RedState × Bool) : RedState :=
  if p.2 then { p.1 with progressCount := p.1.progressCount + 1 } else p.1

/-- The assistant-message part of processLine, in source order: tool-call
dedup, text replacement, stop reason, error message, model, then the progress
notification when changed. -/
def applyAssistantFields (st : RedState) (m : Message) : RedState :=
  applyNotify (applyModel m (applyErr m (applyStop m (applyText m
    (dedupFold st false (extractAssistantToolCalls m))))))

/-- Handling of a decoded message_end event in processLine: the message is
pushed onto the history unconditionally; only assistant messages update the
remaining reduced fields. -/
def applyMessage (st : RedState) (m : Message) : RedState :=
  let pushed := { st with messages := st.messages ++ [m] }
  if m.role = "assistant" then applyAssistantFields pushed m else pushed

/-- Classification of a trimmed line by the JS runtime's JSON parser together
with the shape checks of processLine: the parse threw; the parse produced a
falsy or non-object value; the object is not a message_end event carrying a
truthy message; or a well-formed message_end with its message payload. -/
inductive ParseResult where
  | parseFail
  | notObject
  | noMessageEnd
  | messageEnd (m : Message)

/-- Transcription of processLine: trim the line, ignore it when blank, when it
fails to parse, when it is not an object, or when it is not a message_end
carrying a message; otherwise reduce the message.  The function is total: a
malformed line never raises. -/
def processLine (parse : List Char → ParseResult) (st : RedState) (line : List Char) :
    RedState :=
  if trimChars line = [] then st
  else
    match parse (trimChars line) with
    | .messageEnd m => applyMessage st m
    | _ => st

/-- Prepend a character to the first complete line when one exists, otherwise
to the retained buffer. -/
def consLine (c : Char) : List (List Char) × List Char → List (List Char) × List Char
  | ([], t) => ([], c :: t)
  | (l :: ls, t) => ((c :: l) :: ls, t)

/-- Line framing performed on each stdout chunk: the buffer is split on
newlines, all complete segments are returned as lines and the last segment is
retained as the new buffer, exactly like split followed by pop. -/
def framerFeed : List Char → List (List Char) × List Char
  | [] => ([], [])
  | c :: rest =>
    if c = '\n' then ([] :: (framerFeed rest).1, (framerFeed rest).2)
    else consLine c (framerFeed rest)

/-- Stateful framing loop over a sequence of chunks, starting from a carried
buffer: each chunk is appended to the buffer and framed; emitted lines are
concatenated in arrival order and the final buffer is returned. -/
def feedAll (buf : List Char) : List (List Char) → List (List Char) × List Char
  | [] => ([], buf)
  | chunk :: rest =>
    ((framerFeed (buf ++ chunk)).1 ++ (feedAll (framerFeed (buf ++ chunk)).2 rest).1,
     (feedAll (framerFeed (buf ++ chunk)).2 rest).2)

/-- Reattach the newline terminator each emitted line consumed. -/
def joinNL : List (List Char) → List Char
  | [] => []
  | l :: ls => l ++ '\n' :: joinNL ls

/-- Concatenation of a list of chunks. -/
def concatAll : List (List Char) → List Char
  | [] => []
  | c :: cs => c ++ concatAll cs

/-- Result record resolved by runSubagent (runner module, RunSubagentResult). -/
structure RunSubagentResult where
  exitCode : Int
  stderr : String
  messages : List Message
  finalText : String
  toolCalls : List SubagentToolCall
  stopReason : Option String
  errorMessage : Option String
  model : Option String

/-- How runSubagent terminates: resolving with a result record, or throwing.
The only throw in its body is the abort marker after the awaited promise. -/
inductive Outcome where
  | ok (r : RunSubagentResult)
  | thrown (msg : String)

/-- Discriminator: did runSubagent resolve with a result record. -/
def Outcome.isOk : Outcome → Bool
  | .ok _ => true
  | .thrown _ => false

/-- Full orchestration state of one run: the reducer state, the accumulated
stderr, the framing buffer, the aborted flag, the resolveOnce cell (none while
pending, the resolved exit code afterwards), whether SIGTERM and SIGKILL sends
were attempted, the Node proc.killed flag (true once a signal was successfully
delivered), and whether the OS process is still alive. -/
structure RState where
  red : RedState
  stderr : String
  buffer : List Char
  aborted : Bool
  settled : Option Int
  sigtermSent : Bool
  sigkillSent : Bool
  killedFlag : Bool
  procAlive : Bool

/-- State right after spawn returns a handle. -/
def initState : RState :=
  { red := initRed, stderr := "", buffer := [], aborted := false, settled := none
    sigtermSent := false, sigkillSent := false, killedFlag := false, procAlive := true }

/-- Events the runtime event loop can deliver to the handlers installed by
runSubagent.  graceTimer is the 2000 ms timeout the abort handler schedules;
a valid schedule only delivers it after abortEv. -/
inductive REv where
  | stdoutData (s : List Char)
  | stderrData (s : String)
  | closeEv (code : Option Int)
  | errorEv (name msg : String)
  | abortEv
  | graceTimer

/-- Transcription of resolveOnce: only the first resolution is kept. -/
def resolveOnce (code : Int) (st : RState) : RState :=
  if st.settled.isSome then st else { st with settled := some code }

/-- One event-handler execution, transcribing the handlers in runSubagent.
Node semantics used here: proc.killed is set once kill() successfully delivers
a signal (it does not mean the process exited), and delivery succeeds exactly
while the process is alive.  The close handler flushes a non-blank buffer
through processLine before resolving with code or zero; the error handler
records the message, appends name and message to stderr, and resolves with
one; the abort listener sets aborted and sends SIGTERM; the grace timer sends
SIGKILL only when proc.killed is still false. -/
def stepEvent (parse : List Char → ParseResult) (st : RState) : REv → RState
  | .stdoutData s =>
    { st with buffer := (framerFeed (st.buffer ++ s)).2
              red := (framerFeed (st.buffer ++ s)).1.foldl (processLine parse) st.red }
  | .stderrData s => { st with stderr := st.stderr ++ s }
  | .closeEv code =>
    let st1 :=
      if trimChars st.buffer = [] then st
      else { st with red := processLine parse st.red st.buffer }
    resolveOnce (code.getD 0) { st1 with procAlive := false }
  | .errorEv n msg =>
    resolveOnce 1
      { st with red := { st.red with errorMessage := some msg }
                stderr := st.stderr ++ n ++ ": " ++ msg
                procAlive := false }
  | .abortEv =>
    { st with aborted := true, sigtermSent := true
              killedFlag := st.killedFlag || st.procAlive }
  | .graceTimer =>
    if st.killedFlag then st
    else { st with sigkillSent := true, killedFlag := st.killedFlag || st.procAlive }

/-- Snapshot the await continuation builds from the resolved exit code and the
captured mutable variables. -/
def mkResult (code : Int) (st : RState) : RunSubagentResult :=
  { exitCode := code, stderr := st.stderr, messages := st.red.messages
    finalText := st.red.finalText, toolCalls := st.red.toolCalls
    stopReason := st.red.stopReason, errorMessage := st.red.errorMessage
    model := st.red.model }

/-- Code after the awaited promise: throw the abort marker when aborted,
otherwise return the result record. -/
def finalize (code : Int) (st : RState) : Outcome :=
  if st.aborted then .thrown "Subagent aborted" else .ok (mkResult code st)

/-- One scheduler step: run the handler for the event; when the promise
settles for the first time, fix the outcome from the state at that instant
(the await continuation runs at the following microtask checkpoint, before
any later event is delivered). -/
def runStep (parse : List Char → ParseResult) (acc : RState × Option Outcome) (e : REv) :
    RState × Option Outcome :=
  match acc.2 with
  | some o => (stepEvent parse acc.1 e, some o)
  | none =>
    match (stepEvent parse acc.1 e).settled with
    | none => (stepEvent parse acc.1 e, none)
    | some code => (stepEvent parse acc.1 e, some (finalize code (stepEvent parse acc.1 e)))

/-- Interpretation of runSubagent's spawned-process promise over a finite
event trace: the final handler state, and the outcome of the enclosing
function once the promise has settled (none while still pending). -/
def runEvents (parse : List Char → ParseResult) (evs : List REv) : RState × Option Outcome :=
  evs.foldl (runStep parse) (initState, none)

/-- Transcription of createPromptFile: no file for a whitespace-only prompt,
otherwise a fresh temporary file is created before the process starts.  Only
existence is modelled. -/
def createPromptFile (prompt : String) : Option Unit :=
  if trimChars prompt.data = [] then none else some ()

/-- A filesystem call that may throw. -/
def fsOp (throws : Bool) : Except Unit Unit :=
  if throws then .error () else .ok ()

/-- The finally block of runSubagent: when a prompt file exists, the unlink
and the directory removal are both attempted, each wrapped in its own
try/catch whose empty catch swallows the error.  Returns the number of
removal operations attempted and the number of errors escaping the block. -/
def cleanupPromptFile (created : Bool) (unlinkThrows rmdirThrows : Bool) : Nat × Nat :=
  if created then
    (2,
     (match fsOp unlinkThrows with | .ok _ => 0 | .error _ => 0) +
     (match fsOp rmdirThrows with | .ok _ => 0 | .error _ => 0))
  else (0, 0)

/-- Observable summary of a full runSubagent call. -/
structure RunOutput where
  outcome : Option Outcome
  promptFileCreated : Bool
  cleanupOps : Nat
  cleanupErrors : Nat

/-- runSubagent end to end: the prompt file is created before the spawn, the
promise is awaited over the event trace, and the finally block runs whenever
the function finishes, whether it resolves or throws (outcome present). -/
def runSubagent (parse : List Char → ParseResult) (systemPrompt : String)
    (evs : List REv) (unlinkThrows rmdirThrows : Bool) : RunOutput :=
  { outcome := (runEvents parse evs).2
    promptFileCreated := (createPromptFile systemPrompt).isSome
    cleanupOps :=
      match (runEvents parse evs).2 with
      | some _ =>
        (cleanupPromptFile (createPromptFile systemPrompt).isSome unlinkThrows rmdirThrows).1
      | none => 0
    cleanupErrors :=
      match (runEvents parse evs).2 with
      | some _ =>
        (cleanupPromptFile (createPromptFile systemPrompt).isSome unlinkThrows rmdirThrows).2
      | none => 0 }

/-- ASCII lower casing of a character, as toLowerCase behaves on ASCII. -/
def jsLowerChar (c : Char) : Char :=
  if 'A' ≤ c ∧ c ≤ 'Z' then Char.ofNat (c.toNat + 32) else c

/-- Whether the first list occurs at the start of the second. -/
def startsWithChars : List Char → List Char → Bool
  | [], _ => true
  | _ :: _, [] => false
  | a :: restA, b :: restB => a == b && startsWithChars restA restB

/-- Whether the first list occurs anywhere inside the second, modelling the
JS string includes check. -/
def hasSubstrChars (sub : List Char) : List Char → Bool
  | [] => startsWithChars sub []
  | c :: rest => startsWithChars sub (c :: rest) || hasSubstrChars sub rest

/-- Catch branch of the scout/review tool execute wrapper: a thrown message
containing "aborted" case insensitively is reported with stop reason
"aborted", anything else with "error". -/
def executeCatchStopReason (msg : String) : String :=
  if hasSubstrChars ("aborted".data) (msg.data.map jsLowerChar) then "aborted" else "error"

/-- A parse oracle under which no line decodes to an event; used for concrete
traces whose stdout content is irrelevant. -/
def parseNone : List Char → ParseResult := fun _ => .parseFail

/-! Lemmas about the line framer. -/

/-- Reattaching the consumed newlines to the emitted lines and appending the
retained buffer reconstructs the framed input. -/
theorem framerFeed_reconstruct (s : List Char) :
    joinNL (framerFeed s).1 ++ (framerFeed s).2 = s := by
  induction s with
  | nil => rfl
  | cons c rest ih =>
    rcases hr : framerFeed rest with ⟨ls, t⟩
    rw [hr] at ih
    by_cases hc : c = '\n'
    · subst hc
      simp only [framerFeed, hr, if_pos, joinNL]
      simpa using ih
    · cases ls with
      | nil => simpa [framerFeed, hr, hc, consLine, joinNL] using ih
      | cons l ls2 => simpa [framerFeed, hr, hc, consLine, joinNL] using ih

/-- The framer is compositional: framing an appended input emits the lines of
the first part followed by the lines obtained from its retained buffer joined
with the second part. -/
theorem framerFeed_append (a b : List Char) :
    framerFeed (a ++ b) =
      ((framerFeed a).1 ++ (framerFeed ((framerFeed a).2 ++ b)).1,
       (framerFeed ((framerFeed a).2 ++ b)).2) := by
  induction a with
  | nil => simp [framerFeed]
  | cons c rest ih =>
    rcases hr : framerFeed rest with ⟨ls, t⟩
    rcases hx : framerFeed (t ++ b) with ⟨xs, xt⟩
    rw [hr] at ih
    simp only [hx] at ih
    by_cases hc : c = '\n'
    · subst hc
      simp [framerFeed, hr, hx, ih]
    · cases ls with
      | nil => simp [framerFeed, hr, hx, hc, consLine, ih]
      | cons l ls2 => simp [framerFeed, hr, hx, hc, consLine, ih]

/-- The retained buffer never contains a newline. -/
theorem framerFeed_tail_noNL (s : List Char) : '\n' ∉ (framerFeed s).2 := by
  induction s with
  | nil => simp [framerFeed]
  | cons c rest ih =>
    rcases hr : framerFeed rest with ⟨ls, t⟩
    rw [hr] at ih
    by_cases hc : c = '\n'
    · subst hc
      simpa [framerFeed, hr] using ih
    · cases ls with
      | nil =>
        simp only [framerFeed, hr, if_neg hc, consLine]
        intro hm
        rcases List.mem_cons.mp hm with h1 | h2
        · exact hc h1.symm
        · exact ih h2
      | cons l ls2 => simpa [framerFeed, hr, hc, consLine] using ih

/-- A newline-free input is wholly retained as the buffer. -/
theorem framerFeed_noNL (s : List Char) (h : '\n' ∉ s) : framerFeed s = ([], s) := by
  induction s with
  | nil => rfl
  | cons c rest ih =>
    have hc : ¬ c = '\n' := fun e => h (by simp [e])
    have h2 : '\n' ∉ rest := fun m => h (List.mem_cons_of_mem _ m)
    simp [framerFeed, hc, ih h2, consLine]

/-- Feeding chunks one at a time is the same as framing their concatenation
after the carried buffer, provided the carried buffer is newline free. -/
theorem feedAll_eq_framerFeed (chunks : List (List Char)) :
    ∀ buf : List Char, '\n' ∉ buf →
      feedAll buf chunks = framerFeed (buf ++ concatAll chunks) := by
  induction chunks with
  | nil =>
    intro buf h
    simp [feedAll, concatAll, framerFeed_noNL buf h]
  | cons chunk rest ih =>
    intro buf h
    have hnl := framerFeed_tail_noNL (buf ++ chunk)
    rw [show concatAll (chunk :: rest) = chunk ++ concatAll rest from rfl,
        ← List.append_assoc, framerFeed_append (buf ++ chunk) (concatAll rest)]
    simp only [feedAll, ih _ hnl]

/-! Lemmas about the reducer. -/

/-- The dedup loop only touches seenKeys, toolCalls and the changed flag. -/
theorem dedupFold_preserves (L : List SubagentToolCall) :
    ∀ (st : RedState) (changed : Bool),
      (dedupFold st changed L).1.messages = st.messages ∧
      (dedupFold st changed L).1.finalText = st.finalText ∧
      (dedupFold st changed L).1.stopReason = st.stopReason ∧
      (dedupFold st changed L).1.errorMessage = st.errorMessage ∧
      (dedupFold st changed L).1.model = st.model ∧
      (dedupFold st changed L).1.progressCount = st.progressCount := by
  induction L with
  | nil => intro st changed; simp [dedupFold]
  | cons call rest ih =>
    intro st changed
    by_cases h : dedupKey call ∈ st.seenKeys
    · simpa [dedupFold, h] using ih st changed
    · have := ih { st with seenKeys := st.seenKeys ++ [dedupKey call]
                           toolCalls := st.toolCalls ++ [call] } true
      simpa [dedupFold, h] using this

/-- A key already seen stays seen through the dedup loop. -/
theorem dedupFold_seen_mono (L : List SubagentToolCall) :
    ∀ (st : RedState) (changed : Bool) (k : String),
      k ∈ st.seenKeys → k ∈ (dedupFold st changed L).1.seenKeys := by
  induction L with
  | nil => intro st changed k hk; simpa [dedupFold] using hk
  | cons call rest ih =>
    intro st changed k hk
    by_cases h : dedupKey call ∈ st.seenKeys
    · simp only [dedupFold, if_pos h]
      exact ih st changed k hk
    · simp only [dedupFold, if_neg h]
      exact ih _ true k (by simp [hk])

/-- After the dedup loop, the key of every processed call has been seen. -/
theorem dedupFold_seen_all (L : List SubagentToolCall) :
    ∀ (st : RedState) (changed : Bool) (c : SubagentToolCall), c ∈ L →
      dedupKey c ∈ (dedupFold st changed L).1.seenKeys := by
  induction L with
  | nil => intro st changed c hc; simp at hc
  | cons call rest ih =>
    intro st changed c hc
    rcases List.mem_cons.mp hc with h1 | h2
    · subst h1
      by_cases h : dedupKey c ∈ st.seenKeys
      · simp only [dedupFold, if_pos h]
        exact dedupFold_seen_mono rest st changed _ h
      · simp only [dedupFold, if_neg h]
        exact dedupFold_seen_mono rest _ true _ (by simp)
    · by_cases h : dedupKey call ∈ st.seenKeys
      · simp only [dedupFold, if_pos h]
        exact ih st changed c h2
      · simp only [dedupFold, if_neg h]
        exact ih _ true c h2

/-- When every processed key was already seen, the dedup loop is the
identity. -/
theorem dedupFold_allSeen (L : List SubagentToolCall) :
    ∀ (st : RedState) (changed : Bool),
      (∀ c ∈ L, dedupKey c ∈ st.seenKeys) → dedupFold st changed L = (st, changed) := by
  induction L with
  | nil => intro st changed _; rfl
  | cons call rest ih =>
    intro st changed h
    have h1 : dedupKey call ∈ st.seenKeys := h call (by simp)
    simp only [dedupFold, if_pos h1]
    exact ih st changed (fun c hc => h c (by simp [hc]))

/-- processLine pushes the message onto the history whatever its role. -/
theorem applyMessage_messages (st : RedState) (m : Message) :
    (applyMessage st m).messages = st.messages ++ [m] := by
  have hd := dedupFold_preserves (extractAssistantToolCalls m)
      { st with messages := st.messages ++ [m] } false
  simp only [applyMessage, applyAssistantFields, applyNotify, applyModel, applyErr,
    applyStop, applyText]
  split_ifs <;> simp_all

/-- A non-assistant message only extends the history. -/
theorem applyMessage_nonAssistant (st : RedState) (m : Message)
    (hr : ¬ m.role = "assistant") :
    applyMessage st m = { st with messages := st.messages ++ [m] } := by
  simp [applyMessage, hr]

/-- Outside the assistant role the extracted text is empty. -/
theorem extractAssistantText_nonAssistant (m : Message) (hr : ¬ m.role = "assistant") :
    extractAssistantText m = "" := by
  simp [extractAssistantText, hr]

/-- The final text after a message: unchanged for an empty extracted text,
replaced by it otherwise. -/
theorem applyMessage_finalText (st : RedState) (m : Message) :
    (applyMessage st m).finalText
      = if extractAssistantText m = "" then st.finalText else extractAssistantText m := by
  have hd := dedupFold_preserves (extractAssistantToolCalls m)
      { st with messages := st.messages ++ [m] } false
  by_cases hr : m.role = "assistant"
  · simp only [applyMessage, applyAssistantFields, applyNotify, applyModel, applyErr,
      applyStop, applyText, hr]
    split_ifs <;> simp_all
  · rw [applyMessage_nonAssistant st m hr, extractAssistantText_nonAssistant m hr]
    simp

/-- The tool calls after an assistant message come from the dedup loop over
the pushed state. -/
theorem applyMessage_toolCalls_assistant (st : RedState) (m : Message)
    (hr : m.role = "assistant") :
    (applyMessage st m).toolCalls
      = (dedupFold { st with messages := st.messages ++ [m] } false
          (extractAssistantToolCalls m)).1.toolCalls := by
  simp only [applyMessage, applyAssistantFields, applyNotify, applyModel, applyErr,
    applyStop, applyText, hr]
  split_ifs <;> rfl

/-- The seen keys after an assistant message come from the dedup loop over
the pushed state. -/
theorem applyMessage_seenKeys_assistant (st : RedState) (m : Message)
    (hr : m.role = "assistant") :
    (applyMessage st m).seenKeys
      = (dedupFold { st with messages := st.messages ++ [m] } false
          (extractAssistantToolCalls m)).1.seenKeys := by
  simp only [applyMessage, applyAssistantFields, applyNotify, applyModel, applyErr,
    applyStop, applyText, hr]
  split_ifs <;> rfl

/-- The key of every call extracted from a message has been seen after the
message is applied. -/
theorem applyMessage_seen_all (st : RedState) (m : Message) (c : SubagentToolCall)
    (hc : c ∈ extractAssistantToolCalls m) :
    dedupKey c ∈ (applyMessage st m).seenKeys := by
  by_cases hr : m.role = "assistant"
  · rw [applyMessage_seenKeys_assistant st m hr]
    exact dedupFold_seen_all _ _ _ c hc
  · exact absurd hc (by simp [extractAssistantToolCalls, hr])

/-- A message whose extracted calls were all seen leaves the tool-call
sequence unchanged. -/
theorem applyMessage_toolCalls_allSeen (st : RedState) (m : Message)
    (h : ∀ c ∈ extractAssistantToolCalls m, dedupKey c ∈ st.seenKeys) :
    (applyMessage st m).toolCalls = st.toolCalls := by
  by_cases hr : m.role = "assistant"
  · rw [applyMessage_toolCalls_assistant st m hr,
      dedupFold_allSeen (extractAssistantToolCalls m)
        { st with messages := st.messages ++ [m] } false (fun c hc => h c hc)]
  · rw [applyMessage_nonAssistant st m hr]

/-- Assistant message carrying exactly one tool call, used for concrete
idempotence statements. -/
def mkCallMsg (i : Option String) (n : String) (a : JsValue) : Message :=
  { role := "assistant", content := [.toolCall i n a]
    stopReason := none, errorMessage := none, model := none }

/-! Claim theorems about the reducer. -/

/-- C5: for every stdout byte sequence and every way of splitting it into
chunks, the framing loop emits, in arrival order, exactly the lines of the
unsplit input: rejoining the emitted lines with their consumed terminators and
appending the final retained fragment reconstructs the input, the result is
independent of the chunk boundaries, and a trailing terminator-less fragment
is retained rather than dropped. -/
theorem lineFramer_split_invariance (chunks : List (List Char)) :
    feedAll [] chunks = framerFeed (concatAll chunks) ∧
    joinNL (feedAll [] chunks).1 ++ (feedAll [] chunks).2 = concatAll chunks ∧
    ∀ other : List (List Char), concatAll other = concatAll chunks →
      feedAll [] other = feedAll [] chunks := by
  have h1 : feedAll [] chunks = framerFeed (concatAll chunks) := by
    simpa using feedAll_eq_framerFeed chunks [] (by simp)
  refine ⟨h1, ?_, ?_⟩
  · rw [h1]
    exact framerFeed_reconstruct (concatAll chunks)
  · intro other heq
    have h2 : feedAll [] other = framerFeed (concatAll other) := by
      simpa using feedAll_eq_framerFeed other [] (by simp)
    rw [h2, heq, h1]

/-- Witness for C5 at a concrete input: the same bytes split at different
chunk boundaries frame identically. -/
theorem lineFramer_split_invariance_witness :
    feedAll [] [['a'], ['\n', 'b']] = feedAll [] [['a', '\n'], ['b']] :=
  (lineFramer_split_invariance [['a', '\n'], ['b']]).2.2 [['a'], ['\n', 'b']] rfl

/-- C6: applying the same well-formed message-completed event twice leaves the
recorded tool-call sequence as after one application; from the initial state a
single-call event applied twice records the call exactly once; and the dedup
key is the id of the call when present (and non-empty), else the name plus the
serialized arguments. -/
theorem toolCallDedup_idempotent (st : RedState) (m : Message)
    (i : Option String) (n : String) (a : JsValue) :
    (applyMessage (applyMessage st m) m).toolCalls = (applyMessage st m).toolCalls ∧
    (applyMessage (applyMessage initRed (mkCallMsg i n a)) (mkCallMsg i n a)).toolCalls
      = [{ id := i, name := n, arguments := normalizeArgs a }] ∧
    (∀ c : SubagentToolCall, c.id = none →
      dedupKey c = c.name ++ ":" ++ stringifyJs c.arguments) ∧
    (∀ (c : SubagentToolCall) (j : String), c.id = some j → j ≠ "" → dedupKey c = j) := by
  have idem : ∀ (st' : RedState) (m' : Message),
      (applyMessage (applyMessage st' m') m').toolCalls = (applyMessage st' m').toolCalls :=
    fun st' m' =>
      applyMessage_toolCalls_allSeen _ _ (fun c hc => applyMessage_seen_all _ _ c hc)
  refine ⟨idem st m, ?_, ?_, ?_⟩
  · rw [idem initRed (mkCallMsg i n a),
      applyMessage_toolCalls_assistant _ _ (by rfl)]
    simp [extractAssistantToolCalls, mkCallMsg, dedupFold, initRed]
  · intro c hc
    simp [dedupKey, hc]
  · intro c j hc hj
    simp [dedupKey, hc, hj]

/-- Witness for C6 at a concrete call with an explicit id. -/
theorem toolCallDedup_idempotent_witness :
    (applyMessage (applyMessage initRed (mkCallMsg (some "call_1") "ls" (.obj [])))
      (mkCallMsg (some "call_1") "ls" (.obj []))).toolCalls
      = [{ id := some "call_1", name := "ls", arguments := normalizeArgs (.obj []) }] ∧
    dedupKey { id := some "call_1", name := "ls", arguments := .obj [] } = "call_1" :=
  ⟨(toolCallDedup_idempotent initRed (mkCallMsg (some "call_1") "ls" (.obj []))
      (some "call_1") "ls" (.obj [])).2.1,
   (toolCallDedup_idempotent initRed (mkCallMsg (some "call_1") "ls" (.obj []))
      (some "call_1") "ls" (.obj [])).2.2.2
      { id := some "call_1", name := "ls", arguments := .obj [] } "call_1" rfl
      (by decide)⟩

/-- C7: applying two assistant messages with non-empty extracted texts A then
B leaves finalText equal to B (replacement, not concatenation), the first
application alone leaves it equal to A, and a message with empty extracted
text never changes finalText. -/
theorem finalText_replacement (st : RedState) (m1 m2 : Message)
    (h1 : m1.role = "assistant") (h2 : m2.role = "assistant")
    (hA : extractAssistantText m1 ≠ "") (hB : extractAssistantText m2 ≠ "") :
    (applyMessage (applyMessage st m1) m2).finalText = extractAssistantText m2 ∧
    (applyMessage st m1).finalText = extractAssistantText m1 ∧
    ∀ (st' : RedState) (m' : Message), extractAssistantText m' = "" →
      (applyMessage st' m').finalText = st'.finalText := by
  refine ⟨?_, ?_, ?_⟩
  · rw [applyMessage_finalText]
    simp [hB]
  · rw [applyMessage_finalText]
    simp [hA]
  · intro st' m' h'
    rw [applyMessage_finalText]
    simp [h']

/-- Assistant message whose only content is the text A. -/
def msgTextA : Message :=
  { role := "assistant", content := [.text "A"], stopReason := none
    errorMessage := none, model := none }

/-- Assistant message whose only content is the text B. -/
def msgTextB : Message :=
  { role := "assistant", content := [.text "B"], stopReason := none
    errorMessage := none, model := none }

/-- Assistant message with no content parts, hence empty extracted text. -/
def msgNoText : Message :=
  { role := "assistant", content := [], stopReason := none
    errorMessage := none, model := none }

/-- Witness for C7 at concrete messages A then B. -/
theorem finalText_replacement_witness :
    (applyMessage (applyMessage initRed msgTextA) msgTextB).finalText
      = extractAssistantText msgTextB ∧
    (applyMessage initRed msgTextA).finalText = extractAssistantText msgTextA ∧
    (applyMessage initRed msgNoText).finalText = initRed.finalText := by
  have h := finalText_replacement initRed msgTextA msgTextB rfl rfl (by decide) (by decide)
  exact ⟨h.1, h.2.1, h.2.2 initRed msgNoText (by decide)⟩

/-- C8: a line that is blank, fails to parse, is not an object, or is not a
message-completed event leaves the whole reducer state unchanged, including
the progress-notification counter, and raises nothing since processLine is a
total function. -/
theorem badLine_noop (parse : List Char → ParseResult) (st : RedState) (line : List Char)
    (h : ∀ m : Message, parse (trimChars line) ≠ .messageEnd m) :
    processLine parse st line = st := by
  by_cases ht : trimChars line = []
  · simp [processLine, ht]
  · cases hp : parse (trimChars line) with
    | messageEnd m => exact absurd hp (h m)
    | parseFail => simp [processLine, ht, hp]
    | notObject => simp [processLine, ht, hp]
    | noMessageEnd => simp [processLine, ht, hp]

/-- Witness for C8 at a concrete garbage line. -/
theorem badLine_noop_witness :
    processLine parseNone initRed ['h', 'i'] = initRed :=
  badLine_noop parseNone initRed ['h', 'i'] (fun _ h => ParseResult.noConfusion h)

/-- C10: every decoded message-completed event appends its message to the
history regardless of role; a non-assistant message changes nothing else and
emits no progress notification; and the result record copies the history, so
the returned messages include non-assistant ones. -/
theorem message_appended_any_role (st : RedState) (m : Message) :
    (applyMessage st m).messages = st.messages ++ [m] ∧
    (¬ m.role = "assistant" →
      applyMessage st m = { st with messages := st.messages ++ [m] }) ∧
    ∀ (code : Int) (st' : RState), (mkResult code st').messages = st'.red.messages := by
  refine ⟨applyMessage_messages st m, ?_, ?_⟩
  · intro hr
    exact applyMessage_nonAssistant st m hr
  · intro code st'
    rfl

/-- User-role message used as a concrete non-assistant event. -/
def msgUser : Message :=
  { role := "user", content := [.text "hello"], stopReason := none
    errorMessage := none, model := none }

/-- Witness for C10 at a concrete user message. -/
theorem message_appended_any_role_witness :
    (applyMessage initRed msgUser).messages = initRed.messages ++ [msgUser] ∧
    applyMessage initRed msgUser
      = { initRed with messages := initRed.messages ++ [msgUser] } := by
  have h := message_appended_any_role initRed msgUser
  exact ⟨h.1, h.2.1 (by decide)⟩

/-! Lemmas about the run-level state machine. -/

/-- The state component of a scheduler step is the handler execution. -/
theorem runStep_fst (parse : List Char → ParseResult) (acc : RState × Option Outcome)
    (e : REv) : (runStep parse acc e).1 = stepEvent parse acc.1 e := by
  rcases h : acc.2 with _ | o
  · simp only [runStep, h]
    rcases h2 : (stepEvent parse acc.1 e).settled with _ | c <;> simp [h2]
  · simp [runStep, h]

/-- When the promise settles on this event, the outcome is fixed from the
state at that instant. -/
theorem runStep_none_settles (parse : List Char → ParseResult)
    (acc : RState × Option Outcome) (e : REv) (c : Int) (h : acc.2 = none)
    (h2 : (stepEvent parse acc.1 e).settled = some c) :
    runStep parse acc e
      = (stepEvent parse acc.1 e, some (finalize c (stepEvent parse acc.1 e))) := by
  simp [runStep, h, h2]

/-- While unsettled, a scheduler step carries no outcome. -/
theorem runStep_none_settled (parse : List Char → ParseResult)
    (acc : RState × Option Outcome) (e : REv) (h : acc.2 = none)
    (h2 : (stepEvent parse acc.1 e).settled = none) :
    runStep parse acc e = (stepEvent parse acc.1 e, none) := by
  simp [runStep, h, h2]

/-- After a step without outcome the promise is still unsettled. -/
theorem runStep_none_inv (parse : List Char → ParseResult)
    (acc : RState × Option Outcome) (e : REv)
    (h2 : (runStep parse acc e).2 = none) :
    (runStep parse acc e).1.settled = none := by
  rcases ha : acc.2 with _ | o
  · rcases hs : (stepEvent parse acc.1 e).settled with _ | c
    · rw [runStep_none_settled parse acc e ha hs]
      exact hs
    · rw [runStep_none_settles parse acc e c ha hs] at h2
      simp at h2
  · have hk : (runStep parse acc e).2 = some o := by simp [runStep, ha]
    rw [hk] at h2
    simp at h2

/-- Once fixed, the outcome survives every later event: the terminal result
is constructed exactly once. -/
theorem foldl_keep (parse : List Char → ParseResult) (evs : List REv) :
    ∀ (acc : RState × Option Outcome) (o : Outcome), acc.2 = some o →
      (List.foldl (runStep parse) acc evs).2 = some o := by
  induction evs with
  | nil => intro acc o h; simpa using h
  | cons e rest ih =>
    intro acc o h
    simp only [List.foldl_cons]
    exact ih _ o (by simp [runStep, h])

/-- Without an outcome the promise is still unsettled, along any trace. -/
theorem foldl_none_settled (parse : List Char → ParseResult) (evs : List REv) :
    ∀ acc : RState × Option Outcome,
      (acc.2 = none → acc.1.settled = none) →
      (List.foldl (runStep parse) acc evs).2 = none →
      (List.foldl (runStep parse) acc evs).1.settled = none := by
  induction evs with
  | nil => intro acc h hn; exact h hn
  | cons e rest ih =>
    intro acc h hn
    simp only [List.foldl_cons] at hn ⊢
    exact ih _ (fun h2 => runStep_none_inv parse acc e h2) hn

/-- Each handler either leaves the settled cell and the liveness flag alone or
settles the promise. -/
theorem stepEvent_settled_alive (parse : List Char → ParseResult) (st : RState) (e : REv) :
    ((stepEvent parse st e).settled = st.settled ∧
     (stepEvent parse st e).procAlive = st.procAlive) ∨
    ((stepEvent parse st e).settled).isSome = true := by
  cases e with
  | stdoutData s => left; simp [stepEvent]
  | stderrData s => left; simp [stepEvent]
  | closeEv code =>
    right
    simp only [stepEvent, resolveOnce]
    split_ifs <;> simp_all
  | errorEv n msg =>
    right
    simp only [stepEvent, resolveOnce]
    split_ifs <;> simp_all
  | abortEv => left; simp [stepEvent]
  | graceTimer =>
    simp only [stepEvent]
    split_ifs <;> left <;> simp

/-- While the promise is unsettled the process is still alive. -/
theorem stepEvent_alive_inv (parse : List Char → ParseResult) (st : RState) (e : REv)
    (h : st.settled = none → st.procAlive = true)
    (h2 : (stepEvent parse st e).settled = none) :
    (stepEvent parse st e).procAlive = true := by
  rcases stepEvent_settled_alive parse st e with ⟨hs, ha⟩ | hs
  · rw [ha]
    rw [hs] at h2
    exact h h2
  · rw [h2] at hs
    simp at hs

/-- Liveness invariant along a trace. -/
theorem foldl_alive (parse : List Char → ParseResult) (evs : List REv) :
    ∀ acc : RState × Option Outcome,
      (acc.1.settled = none → acc.1.procAlive = true) →
      (List.foldl (runStep parse) acc evs).1.settled = none →
      (List.foldl (runStep parse) acc evs).1.procAlive = true := by
  induction evs with
  | nil => intro acc h hn; exact h hn
  | cons e rest ih =>
    intro acc h hn
    simp only [List.foldl_cons] at hn ⊢
    refine ih _ ?_ hn
    intro h2
    rw [runStep_fst] at h2 ⊢
    exact stepEvent_alive_inv parse acc.1 e h h2

/-- The aborted flag is sticky across handlers. -/
theorem stepEvent_aborted_mono (parse : List Char → ParseResult) (st : RState) (e : REv)
    (h : st.aborted = true) : (stepEvent parse st e).aborted = true := by
  cases e with
  | stdoutData s => simpa [stepEvent] using h
  | stderrData s => simpa [stepEvent] using h
  | closeEv code =>
    simp only [stepEvent, resolveOnce]
    split_ifs <;> simpa using h
  | errorEv n msg =>
    simp only [stepEvent, resolveOnce]
    split_ifs <;> simpa using h
  | abortEv => simp [stepEvent]
  | graceTimer =>
    simp only [stepEvent]
    split_ifs <;> simpa using h

/-- Only the abort listener sets the aborted flag. -/
theorem stepEvent_aborted_eq (parse : List Char → ParseResult) (st : RState) (e : REv)
    (h : e ≠ REv.abortEv) : (stepEvent parse st e).aborted = st.aborted := by
  cases e with
  | abortEv => exact absurd rfl h
  | stdoutData s => simp [stepEvent]
  | stderrData s => simp [stepEvent]
  | closeEv code =>
    simp only [stepEvent, resolveOnce]
    split_ifs <;> simp
  | errorEv n msg =>
    simp only [stepEvent, resolveOnce]
    split_ifs <;> simp
  | graceTimer =>
    simp only [stepEvent]
    split_ifs <;> simp

/-- The Node proc.killed flag is sticky across handlers. -/
theorem stepEvent_killed_mono (parse : List Char → ParseResult) (st : RState) (e : REv)
    (h : st.killedFlag = true) : (stepEvent parse st e).killedFlag = true := by
  cases e with
  | stdoutData s => simpa [stepEvent] using h
  | stderrData s => simpa [stepEvent] using h
  | closeEv code =>
    simp only [stepEvent, resolveOnce]
    split_ifs <;> simpa using h
  | errorEv n msg =>
    simp only [stepEvent, resolveOnce]
    split_ifs <;> simpa using h
  | abortEv => simp [stepEvent, h]
  | graceTimer =>
    simp only [stepEvent]
    split_ifs <;> simp_all

/-- The SIGTERM attempt flag is sticky across handlers. -/
theorem stepEvent_sigterm_mono (parse : List Char → ParseResult) (st : RState) (e : REv)
    (h : st.sigtermSent = true) : (stepEvent parse st e).sigtermSent = true := by
  cases e with
  | stdoutData s => simpa [stepEvent] using h
  | stderrData s => simpa [stepEvent] using h
  | closeEv code =>
    simp only [stepEvent, resolveOnce]
    split_ifs <;> simpa using h
  | errorEv n msg =>
    simp only [stepEvent, resolveOnce]
    split_ifs <;> simpa using h
  | abortEv => simp [stepEvent]
  | graceTimer =>
    simp only [stepEvent]
    split_ifs <;> simpa using h

/-- Stickiness of the aborted flag along a trace. -/
theorem foldl_aborted_mono (parse : List Char → ParseResult) (evs : List REv) :
    ∀ acc : RState × Option Outcome, acc.1.aborted = true →
      (List.foldl (runStep parse) acc evs).1.aborted = true := by
  induction evs with
  | nil => intro acc h; exact h
  | cons e rest ih =>
    intro acc h
    simp only [List.foldl_cons]
    refine ih _ ?_
    rw [runStep_fst]
    exact stepEvent_aborted_mono parse acc.1 e h

/-- Stickiness of the proc.killed flag along a trace. -/
theorem foldl_killed_mono (parse : List Char → ParseResult) (evs : List REv) :
    ∀ acc : RState × Option Outcome, acc.1.killedFlag = true →
      (List.foldl (runStep parse) acc evs).1.killedFlag = true := by
  induction evs with
  | nil => intro acc h; exact h
  | cons e rest ih =>
    intro acc h
    simp only [List.foldl_cons]
    refine ih _ ?_
    rw [runStep_fst]
    exact stepEvent_killed_mono parse acc.1 e h

/-- Stickiness of the SIGTERM attempt flag along a trace. -/
theorem foldl_sigterm_mono (parse : List Char → ParseResult) (evs : List REv) :
    ∀ acc : RState × Option Outcome, acc.1.sigtermSent = true →
      (List.foldl (runStep parse) acc evs).1.sigtermSent = true := by
  induction evs with
  | nil => intro acc h; exact h
  | cons e rest ih =>
    intro acc h
    simp only [List.foldl_cons]
    refine ih _ ?_
    rw [runStep_fst]
    exact stepEvent_sigterm_mono parse acc.1 e h

/-- Without an abort event the aborted flag stays down. -/
theorem foldl_aborted_false (parse : List Char → ParseResult) (evs : List REv) :
    ∀ acc : RState × Option Outcome, acc.1.aborted = false →
      (∀ e ∈ evs, e ≠ REv.abortEv) →
      (List.foldl (runStep parse) acc evs).1.aborted = false := by
  induction evs with
  | nil => intro acc h _; exact h
  | cons e rest ih =>
    intro acc h hno
    simp only [List.foldl_cons]
    refine ih _ ?_ (fun x hx => hno x (by simp [hx]))
    rw [runStep_fst, stepEvent_aborted_eq parse acc.1 e (hno e (by simp))]
    exact h

/-- Whenever a run whose aborted flag is up settles, the fixed outcome is the
abort marker throw. -/
theorem foldl_aborted_thrown (parse : List Char → ParseResult) (evs : List REv) :
    ∀ acc : RState × Option Outcome, acc.1.aborted = true → acc.2 = none →
      ∀ o : Outcome, (List.foldl (runStep parse) acc evs).2 = some o →
        o = .thrown "Subagent aborted" := by
  induction evs with
  | nil =>
    intro acc h1 h2 o h3
    simp only [List.foldl_nil] at h3
    rw [h2] at h3
    exact absurd h3 (by simp)
  | cons e rest ih =>
    intro acc h1 h2 o h3
    simp only [List.foldl_cons] at h3
    have hab : (stepEvent parse acc.1 e).aborted = true :=
      stepEvent_aborted_mono parse acc.1 e h1
    rcases hs : (stepEvent parse acc.1 e).settled with _ | c
    · exact ih _ (by rw [runStep_fst]; exact hab)
        (by rw [runStep_none_settled parse acc e h2 hs]) o h3
    · rw [runStep_none_settles parse acc e c h2 hs] at h3
      have h5 : (List.foldl (runStep parse)
          (stepEvent parse acc.1 e, some (finalize c (stepEvent parse acc.1 e))) rest).2
          = some (finalize c (stepEvent parse acc.1 e)) :=
        foldl_keep parse rest _ _ rfl
      rw [h5] at h3
      have h6 : finalize c (stepEvent parse acc.1 e) = o := Option.some.inj h3
      rw [← h6]
      simp [finalize, hab]

/-- An appended trace folds from the state reached by the first part. -/
theorem runEvents_append (parse : List Char → ParseResult) (a b : List REv) :
    runEvents parse (a ++ b) = List.foldl (runStep parse) (runEvents parse a) b := by
  simp [runEvents, List.foldl_append]

/-! Claim theorems about the run-level behaviour. -/

/-- C1 counterexample: the claim as stated fails on the code.  When the
cancellation signal fires before the child exits, run does not resolve with a
SubagentResult at all; on the concrete trace abort then close with code zero
the promise continuation throws the abort marker instead of returning a
result record. -/
theorem abortBeforeExit_not_result :
    (runEvents parseNone [REv.abortEv, REv.closeEv (some 0)]).2
      = some (.thrown "Subagent aborted") ∧
    Option.map Outcome.isOk (runEvents parseNone [REv.abortEv, REv.closeEv (some 0)]).2
      = some false :=
  ⟨rfl, rfl⟩

/-- C1 amended: when the cancellation signal fires while the run is still
unsettled, the child receives the graceful termination signal (the SIGTERM
send is attempted and, the process being alive, delivered), and if the run
settles at all it terminates by throwing the distinguishable marker message
"Subagent aborted" — internal errors instead resolve normally — which the
tool-layer catch maps to the stop reason "aborted". -/
theorem abortBeforeExit_throws_marker (parse : List Char → ParseResult)
    (pre post : List REv) (o : Outcome)
    (hpre : (runEvents parse pre).2 = none)
    (hout : (runEvents parse (pre ++ REv.abortEv :: post)).2 = some o) :
    o = .thrown "Subagent aborted" ∧
    (runEvents parse (pre ++ REv.abortEv :: post)).1.sigtermSent = true ∧
    (runEvents parse (pre ++ REv.abortEv :: post)).1.killedFlag = true ∧
    executeCatchStopReason "Subagent aborted" = "aborted" := by
  have hsettled : (runEvents parse pre).1.settled = none :=
    foldl_none_settled parse pre (initState, none) (fun _ => rfl) hpre
  have halive : (runEvents parse pre).1.procAlive = true :=
    foldl_alive parse pre (initState, none) (fun _ => rfl) hsettled
  have hs : (stepEvent parse (runEvents parse pre).1 REv.abortEv).settled = none := by
    simpa [stepEvent] using hsettled
  have heq := runStep_none_settled parse (runEvents parse pre) REv.abortEv hpre hs
  have happ : runEvents parse (pre ++ REv.abortEv :: post)
      = List.foldl (runStep parse)
          (runStep parse (runEvents parse pre) REv.abortEv) post := by
    rw [runEvents_append]
    simp [List.foldl_cons]
  rw [happ, heq] at hout
  have hab : (stepEvent parse (runEvents parse pre).1 REv.abortEv).aborted = true := by
    simp [stepEvent]
  have hkf : (stepEvent parse (runEvents parse pre).1 REv.abortEv).killedFlag = true := by
    simp [stepEvent, halive]
  have hts : (stepEvent parse (runEvents parse pre).1 REv.abortEv).sigtermSent = true := by
    simp [stepEvent]
  refine ⟨foldl_aborted_thrown parse post _ hab rfl o hout, ?_, ?_, ?_⟩
  · rw [happ, heq]
    exact foldl_sigterm_mono parse post _ hts
  · rw [happ, heq]
    exact foldl_killed_mono parse post _ hkf
  · rfl

/-- Witness for the amended C1 at a concrete trace: abort before a close with
the SIGTERM exit code. -/
theorem abortBeforeExit_throws_marker_witness :
    (Outcome.thrown "Subagent aborted" : Outcome) = .thrown "Subagent aborted" ∧
    (runEvents parseNone ([] ++ REv.abortEv :: [REv.closeEv (some 143)])).1.sigtermSent
      = true ∧
    (runEvents parseNone ([] ++ REv.abortEv :: [REv.closeEv (some 143)])).1.killedFlag
      = true ∧
    executeCatchStopReason "Subagent aborted" = "aborted" :=
  abortBeforeExit_throws_marker parseNone [] [REv.closeEv (some 143)]
    (.thrown "Subagent aborted") rfl rfl

/-- C2: once the promise has settled — in particular once the child process
has exited and the close handler has run — a later cancellation is a no-op:
the outcome was fixed exactly once, at settlement, and the run returns the
very same completed result with or without the late abort event. -/
theorem lateAbort_noop (parse : List Char → ParseResult) (pre post : List REv) (o : Outcome)
    (h : (runEvents parse pre).2 = some o) :
    (runEvents parse (pre ++ REv.abortEv :: post)).2 = some o ∧
    (runEvents parse (pre ++ post)).2 = some o := by
  constructor
  · rw [runEvents_append]
    exact foldl_keep parse _ _ o h
  · rw [runEvents_append]
    exact foldl_keep parse _ _ o h

/-- Result of a run that exits zero with no output. -/
def resultEmpty0 : RunSubagentResult :=
  { exitCode := 0, stderr := "", messages := [], finalText := "", toolCalls := []
    stopReason := none, errorMessage := none, model := none }

/-- Witness for C2: a close with code zero followed by a late abort yields
exactly the result of the close alone. -/
theorem lateAbort_noop_witness :
    (runEvents parseNone ([REv.closeEv (some 0)] ++ REv.abortEv :: [])).2
      = some (.ok resultEmpty0) ∧
    (runEvents parseNone ([REv.closeEv (some 0)] ++ [])).2 = some (.ok resultEmpty0) :=
  lateAbort_noop parseNone [REv.closeEv (some 0)] [] (.ok resultEmpty0) rfl

/-- C3 evaluation: on the trace where the abort fires while the child is
alive and the child then ignores SIGTERM past the grace timer, the SIGTERM
was delivered (so Node's proc.killed flag is up), the process is still alive
and the promise unsettled when the timer fires, and yet no SIGKILL is sent:
the timer callback tests proc.killed — already true because the SIGTERM send
succeeded — rather than whether the process exited. -/
theorem graceTimer_sigkill_never_sent :
    (runEvents parseNone [REv.abortEv, REv.graceTimer]).1.sigtermSent = true ∧
    (runEvents parseNone [REv.abortEv, REv.graceTimer]).1.killedFlag = true ∧
    (runEvents parseNone [REv.abortEv, REv.graceTimer]).1.procAlive = true ∧
    (runEvents parseNone [REv.abortEv, REv.graceTimer]).1.settled = none ∧
    (runEvents parseNone [REv.abortEv, REv.graceTimer]).1.sigkillSent = false :=
  ⟨rfl, rfl, rfl, rfl, rfl⟩

/-- C4: when process creation fails, the error handler resolves the promise —
it does not reject — through the same completion path as a normal exit, with
exit code one and the error message recorded; the message being non-empty,
the result carries a non-empty error message. -/
theorem spawnFailure_resolves (parse : List Char → ParseResult)
    (pre post : List REv) (n msg : String)
    (hpre : (runEvents parse pre).2 = none)
    (hnoabort : REv.abortEv ∉ pre)
    (hmsg : msg ≠ "") :
    ∃ r : RunSubagentResult,
      (runEvents parse (pre ++ REv.errorEv n msg :: post)).2 = some (.ok r) ∧
      r.exitCode = 1 ∧ r.errorMessage = some msg ∧ r.errorMessage ≠ some "" := by
  have habort : (runEvents parse pre).1.aborted = false :=
    foldl_aborted_false parse pre (initState, none) rfl
      (fun e he heq => hnoabort (heq ▸ he))
  have hsettled : (runEvents parse pre).1.settled = none :=
    foldl_none_settled parse pre (initState, none) (fun _ => rfl) hpre
  have hs : (stepEvent parse (runEvents parse pre).1 (REv.errorEv n msg)).settled
      = some 1 := by
    simp [stepEvent, resolveOnce, hsettled]
  have heq := runStep_none_settles parse (runEvents parse pre) (REv.errorEv n msg) 1 hpre hs
  have happ : runEvents parse (pre ++ REv.errorEv n msg :: post)
      = List.foldl (runStep parse)
          (runStep parse (runEvents parse pre) (REv.errorEv n msg)) post := by
    rw [runEvents_append]
    simp [List.foldl_cons]
  have hab : (stepEvent parse (runEvents parse pre).1 (REv.errorEv n msg)).aborted
      = false := by
    simp only [stepEvent, resolveOnce]
    split_ifs <;> simpa using habort
  have herr : (mkResult 1 (stepEvent parse (runEvents parse pre).1
      (REv.errorEv n msg))).errorMessage = some msg := by
    simp only [mkResult, stepEvent, resolveOnce]
    split_ifs <;> rfl
  refine ⟨mkResult 1 (stepEvent parse (runEvents parse pre).1 (REv.errorEv n msg)),
    ?_, rfl, herr, ?_⟩
  · rw [happ, heq]
    refine foldl_keep parse post _ _ ?_
    simp [finalize, hab]
  · rw [herr]
    simp [hmsg]

/-- Witness for C4 at the concrete executable-not-found failure. -/
theorem spawnFailure_resolves_witness :
    ∃ r : RunSubagentResult,
      (runEvents parseNone ([] ++ REv.errorEv "Error" "spawn pi ENOENT" :: [])).2
        = some (.ok r) ∧
      r.exitCode = 1 ∧ r.errorMessage = some "spawn pi ENOENT" ∧
      r.errorMessage ≠ some "" :=
  spawnFailure_resolves parseNone [] [] "Error" "spawn pi ENOENT" rfl (by simp) (by decide)

/-- C9: when a non-blank system prompt is supplied and the run finishes —
resolving or throwing, on any trace, hence on the natural-completion, spawn
failure and abort paths alike — both removal calls of the finally block are
attempted, no cleanup error escapes the swallowing catches, and the outcome
is exactly the outcome of the run, independent of whether the removal calls
throw. -/
theorem promptFile_cleanup (parse : List Char → ParseResult) (sys : String)
    (evs : List REv) (u r u' r' : Bool)
    (hsys : ¬ trimChars sys.data = [])
    (hdone : ((runEvents parse evs).2).isSome = true) :
    (runSubagent parse sys evs u r).cleanupOps = 2 ∧
    (runSubagent parse sys evs u r).cleanupErrors = 0 ∧
    (runSubagent parse sys evs u r).outcome = (runEvents parse evs).2 ∧
    (runSubagent parse sys evs u r).outcome = (runSubagent parse sys evs u' r').outcome := by
  rcases ho : (runEvents parse evs).2 with _ | o
  · rw [ho] at hdone
    simp at hdone
  · refine ⟨?_, ?_, ?_, rfl⟩
    · simp [runSubagent, ho, cleanupPromptFile, createPromptFile, hsys]
    · cases u <;> cases r <;>
        simp [runSubagent, ho, cleanupPromptFile, createPromptFile, hsys, fsOp]
    · simp [runSubagent, ho]

/-- Witness for C9 at a concrete prompt, trace and throwing cleanup calls. -/
theorem promptFile_cleanup_witness :
    (runSubagent parseNone "You are Scout" [REv.closeEv (some 0)] true true).cleanupOps
      = 2 ∧
    (runSubagent parseNone "You are Scout" [REv.closeEv (some 0)] true true).cleanupErrors
      = 0 ∧
    (runSubagent parseNone "You are Scout" [REv.closeEv (some 0)] true true).outcome
      = (runEvents parseNone [REv.closeEv (some 0)]).2 ∧
    (runSubagent parseNone "You are Scout" [REv.closeEv (some 0)] true true).outcome
      = (runSubagent parseNone "You are Scout" [REv.closeEv (some 0)] false false).outcome :=
  promptFile_cleanup parseNone "You are Scout" [REv.closeEv (some 0)] true true false false
    (by decide) rfl

end Subagents
